import Mathlib

/-!
Shallow embedding of the session/credential/cache core of the
csg-portal-mcp repository (TypeScript), for checking its specification.

Machine integers are modelled as `Nat` with explicit reduction modulo
`2^32` where the source's crypto primitives overflow.  The repository's
calls to node's `createHash('sha256')` are embedded by a concrete
executable SHA-256 (FIPS 180-4) over the UTF-8 bytes of the input string.
-/

set_option maxRecDepth 10000

namespace Portal

/-- 2^32, the modulus for 32-bit words in SHA-256. -/
def m32 : Nat := 4294967296

/-- Addition modulo 2^32. -/
def add32 (a b : Nat) : Nat := (a + b) % m32

/-- Bitwise complement within 32 bits (inputs are kept < 2^32). -/
def not32 (a : Nat) : Nat := 4294967295 - a

/-- Right rotation of a 32-bit word by `n` places. -/
def rotr (n a : Nat) : Nat :=
  Nat.lor (a >>> n) ((a % (2 ^ n)) <<< (32 - n))

/-- SHA-256 big sigma-0. -/
def bsig0 (x : Nat) : Nat := Nat.xor (rotr 2 x) (Nat.xor (rotr 13 x) (rotr 22 x))

/-- SHA-256 big sigma-1. -/
def bsig1 (x : Nat) : Nat := Nat.xor (rotr 6 x) (Nat.xor (rotr 11 x) (rotr 25 x))

/-- SHA-256 small sigma-0. -/
def ssig0 (x : Nat) : Nat := Nat.xor (rotr 7 x) (Nat.xor (rotr 18 x) (x >>> 3))

/-- SHA-256 small sigma-1. -/
def ssig1 (x : Nat) : Nat := Nat.xor (rotr 17 x) (Nat.xor (rotr 19 x) (x >>> 10))

/-- SHA-256 choice function. -/
def chF (x y z : Nat) : Nat := Nat.xor (Nat.land x y) (Nat.land (not32 x) z)

/-- SHA-256 majority function. -/
def majF (x y z : Nat) : Nat :=
  Nat.xor (Nat.land x y) (Nat.xor (Nat.land x z) (Nat.land y z))

/-- The 64 SHA-256 round constants (FIPS 180-4 §4.2.2, in decimal). -/
def kConst : List Nat :=
  [1116352408, 1899447441, 3049323471, 3921009573, 961987163,
   1508970993, 2453635748, 2870763221, 3624381080, 310598401,
   607225278, 1426881987, 1925078388, 2162078206, 2614888103,
   3248222580, 3835390401, 4022224774, 264347078, 604807628,
   770255983, 1249150122, 1555081692, 1996064986, 2554220882,
   2821834349, 2952996808, 3210313671, 3336571891, 3584528711,
   113926993, 338241895, 666307205, 773529912, 1294757372,
   1396182291, 1695183700, 1986661051, 2177026350, 2456956037,
   2730485921, 2820302411, 3259730800, 3345764771, 3516065817,
   3600352804, 4094571909, 275423344, 430227734, 506948616,
   659060556, 883997877, 958139571, 1322822218, 1537002063,
   1747873779, 1955562222, 2024104815, 2227730452, 2361852424,
   2428436474, 2756734187, 3204031479, 3329325298]

/-- SHA-256 working registers a..h. -/
structure Regs where
  ra : Nat
  rb : Nat
  rc : Nat
  rd : Nat
  re : Nat
  rf : Nat
  rg : Nat
  rh : Nat

/-- Initial SHA-256 hash value (FIPS 180-4 §5.3.3, in decimal). -/
def initRegs : Regs :=
  { ra := 1779033703, rb := 3144134277, rc := 1013904242, rd := 2773480762,
    re := 1359893119, rf := 2600822924, rg := 528734635, rh := 1541459225 }

/-- One SHA-256 compression round. -/
def shaRound (r : Regs) (k w : Nat) : Regs :=
  let t1 := add32 r.rh (add32 (bsig1 r.re) (add32 (chF r.re r.rf r.rg) (add32 k w)))
  let t2 := add32 (bsig0 r.ra) (majF r.ra r.rb r.rc)
  { ra := add32 t1 t2, rb := r.ra, rc := r.rb, rd := r.rc,
    re := add32 r.rd t1, rf := r.re, rg := r.rf, rh := r.rg }

/-- Big-endian bytes (4) of a 32-bit word. -/
def be32 (n : Nat) : List Nat :=
  [(n >>> 24) % 256, (n >>> 16) % 256, (n >>> 8) % 256, n % 256]

/-- Big-endian bytes (8) of a 64-bit length field. -/
def be64 (n : Nat) : List Nat :=
  [(n >>> 56) % 256, (n >>> 48) % 256, (n >>> 40) % 256, (n >>> 32) % 256,
   (n >>> 24) % 256, (n >>> 16) % 256, (n >>> 8) % 256, n % 256]

/-- Group a byte list into big-endian 32-bit words. -/
def toWords : List Nat → List Nat
  | a :: b :: c :: d :: rest => (((a * 256 + b) * 256 + c) * 256 + d) :: toWords rest
  | _ => []

/-- Extend the 16-word block to the 64-word message schedule (48 steps). -/
def extendSchedule : Nat → List Nat → List Nat
  | 0, ws => ws
  | n + 1, ws =>
    let t := ws.length
    let next := add32 (ssig1 (ws.getD (t - 2) 0))
      (add32 (ws.getD (t - 7) 0)
        (add32 (ssig0 (ws.getD (t - 15) 0)) (ws.getD (t - 16) 0)))
    extendSchedule n (ws ++ [next])

/-- Compress one 64-byte block into the running hash state. -/
def compressBlock (hs : Regs) (block : List Nat) : Regs :=
  let w := extendSchedule 48 (toWords block)
  let r := (w.zip kConst).foldl (fun r wk => shaRound r wk.2 wk.1) hs
  { ra := add32 hs.ra r.ra, rb := add32 hs.rb r.rb, rc := add32 hs.rc r.rc,
    rd := add32 hs.rd r.rd, re := add32 hs.re r.re, rf := add32 hs.rf r.rf,
    rg := add32 hs.rg r.rg, rh := add32 hs.rh r.rh }

/-- Process the padded message 64 bytes at a time (fuel-bounded recursion). -/
def processBlocks : Nat → Regs → List Nat → Regs
  | 0, hs, _ => hs
  | _, hs, [] => hs
  | fuel + 1, hs, bytes =>
    processBlocks fuel (compressBlock hs (bytes.take 64)) (bytes.drop 64)

/-- SHA-256 padding: 0x80, zeros to 56 mod 64, then the 64-bit bit length. -/
def padBytes (msg : List Nat) : List Nat :=
  let len := msg.length
  let padZeros := (119 - len % 64) % 64
  msg ++ [128] ++ List.replicate padZeros 0 ++ be64 (len * 8)

/-- SHA-256 digest (32 bytes) of a byte list. -/
def sha256Bytes (msg : List Nat) : List Nat :=
  let padded := padBytes msg
  let r := processBlocks padded.length initRegs padded
  be32 r.ra ++ be32 r.rb ++ be32 r.rc ++ be32 r.rd ++
    be32 r.re ++ be32 r.rf ++ be32 r.rg ++ be32 r.rh

/-- Hex digit character for a nibble. -/
def hexDigit (n : Nat) : Char :=
  if n < 10 then Char.ofNat (48 + n) else Char.ofNat (87 + n)

/-- Two lowercase hex characters of a byte. -/
def hexOfByte (b : Nat) : List Char := [hexDigit (b / 16), hexDigit (b % 16)]

/-- UTF-8 bytes of one character. -/
def utf8Char (c : Char) : List Nat :=
  let n := c.toNat
  if n < 128 then [n]
  else if n < 2048 then [192 + n / 64, 128 + n % 64]
  else if n < 65536 then [224 + n / 4096, 128 + (n / 64) % 64, 128 + n % 64]
  else [240 + n / 262144, 128 + (n / 4096) % 64, 128 + (n / 64) % 64, 128 + n % 64]

/-- UTF-8 bytes of a string. -/
def utf8Bytes (s : String) : List Nat := (s.data.map utf8Char).flatten

/-- Hex digest string: `createHash('sha256').update(s).digest('hex')`. -/
def sha256hex (s : String) : String := ⟨((sha256Bytes (utf8Bytes s)).map hexOfByte).flatten⟩

/-- `s.toLowerCase()` (ASCII range, which covers the identities involved). -/
def lowerStr (s : String) : String := ⟨s.data.map Char.toLower⟩

/-- Does `l` start with `pre`? -/
def listStartsWith : List Char → List Char → Bool
  | [], _ => true
  | _ :: _, [] => false
  | p :: ps, c :: cs => p == c && listStartsWith ps cs

/-- Does `hay` contain `needle` as a contiguous substring? -/
def containsSub (needle : List Char) : List Char → Bool
  | [] => listStartsWith needle []
  | c :: cs => listStartsWith needle (c :: cs) || containsSub needle cs

/-- JavaScript `s.includes(sub)`. -/
def strIncludes (s sub : String) : Bool := containsSub sub.data s.data

/-! ### JSON serialization used by `MongoSearchCache.getCacheKey`

`JSON.stringify(searchParams, Object.keys(searchParams).sort())` serializes
the remaining string-valued fields in sorted key order.  String values are
escaped; we model the quote and backslash escapes (the escapes that matter
for unambiguity of the encoding). -/

/-- JSON escape of one character. -/
def escChar (c : Char) : List Char :=
  if c = '"' || c = '\\' then ['\\', c] else [c]

/-- JSON escape of a character list. -/
def escChars (l : List Char) : List Char := (l.map escChar).flatten

/-- One serialized `"key":"value"` pair. -/
def encPair (kv : String × String) : List Char :=
  '"' :: (escChars kv.1.data ++ ('"' :: (':' :: ('"' :: (escChars kv.2.data ++ ['"'])))))

/-- Comma-joined serialized pairs. -/
def encPairs : List (String × String) → List Char
  | [] => []
  | [kv] => encPair kv
  | kv :: rest => encPair kv ++ (',' :: encPairs rest)

/-- A serialized JSON object of string fields. -/
def jsonObj (ps : List (String × String)) : List Char := '{' :: (encPairs ps ++ ['}'])

/-- Parse a JSON string literal body up to its closing quote, undoing escapes.
Returns the decoded characters and the rest of the input. -/
def parseStr : List Char → Option (List Char × List Char)
  | [] => none
  | c :: rest =>
    if c = '"' then some ([], rest)
    else if c = '\\' then
      match rest with
      | [] => none
      | d :: rest2 => (parseStr rest2).map (fun sr => (d :: sr.1, sr.2))
    else (parseStr rest).map (fun sr => (c :: sr.1, sr.2))

/-- Parse `"k":"v"` pairs separated by commas and terminated by the closing
brace (fuel-bounded recursion on the number of pairs). -/
def parsePairsF : Nat → List Char → Option (List (String × String))
  | 0, _ => none
  | _ + 1, [] => none
  | fuel + 1, c :: l =>
    if c = '"' then
      match parseStr l with
      | none => none
      | some (k, r1) =>
        match r1 with
        | ':' :: '"' :: r2 =>
          match parseStr r2 with
          | none => none
          | some (v, r3) =>
            match r3 with
            | ['}'] => some [(⟨k⟩, ⟨v⟩)]
            | ',' :: r4 => (parsePairsF fuel r4).map (fun ps => (⟨k⟩, ⟨v⟩) :: ps)
            | _ => none
        | _ => none
    else none

/-- Decode a serialized JSON object of string fields. -/
def decodeObj (l : List Char) : Option (List (String × String)) :=
  match l with
  | '{' :: rest =>
    if rest = ['}'] then some [] else parsePairsF rest.length rest
  | _ => none

/-! ### `DirectorySearchParams` (src/directory.ts) and the cache signature -/

/-- The search-parameter object passed to the directory tools.  The five
search fields are optional strings; `refresh` and `userEmail` are the
volatile fields excluded from the cache key.  `keyOrder` records the
JavaScript object's own (insertion) key order, the one thing about the
object not captured by the typed fields. -/
structure DirectorySearchParams where
  firstName : Option String
  lastName : Option String
  city : Option String
  postalCode : Option String
  gradeLevel : Option String
  refresh : Option Bool
  userEmail : Option String
  keyOrder : List String

/-- The five search-field keys in sorted (canonical) order. -/
def searchFieldKeys : List String :=
  ["city", "firstName", "gradeLevel", "lastName", "postalCode"]

/-- Field lookup by key name. -/
def searchField (p : DirectorySearchParams) (k : String) : Option String :=
  if k = "city" then p.city
  else if k = "firstName" then p.firstName
  else if k = "gradeLevel" then p.gradeLevel
  else if k = "lastName" then p.lastName
  else if k = "postalCode" then p.postalCode
  else none

/-- All keys of the `DirectorySearchParams` interface. -/
def allParamKeys : List String :=
  ["city", "firstName", "gradeLevel", "lastName", "postalCode", "refresh",
   "userEmail"]

/-- Whether key `k` is present on the object `p`. -/
def keyPresent (p : DirectorySearchParams) (k : String) : Bool :=
  if k = "refresh" then p.refresh.isSome
  else if k = "userEmail" then p.userEmail.isSome
  else searchFieldKeys.contains k && (searchField p k).isSome

/-- Well-formedness of the `keyOrder` component: it lists exactly the
present keys of the interface, each once (a JavaScript object's key list). -/
def DirectorySearchParams.WF (p : DirectorySearchParams) : Prop :=
  p.keyOrder.Nodup ∧ (∀ k ∈ p.keyOrder, k ∈ allParamKeys) ∧
    ∀ k ∈ allParamKeys, (k ∈ p.keyOrder ↔ keyPresent p k = true)

/-- Lexicographic comparison of character lists by code point — the order
`Array.prototype.sort()` uses on these ASCII key strings. -/
def listLeb : List Char → List Char → Bool
  | [], _ => true
  | _ :: _, [] => false
  | c :: cs, d :: ds =>
    if c.toNat < d.toNat then true
    else if d.toNat < c.toNat then false
    else listLeb cs ds

/-- Lexicographic comparison of strings. -/
def strLeb (a b : String) : Bool := listLeb a.data b.data

/-- Insert into a list sorted by `strLeb`. -/
def insertSorted (a : String) : List String → List String
  | [] => [a]
  | b :: bs => if strLeb a b then a :: b :: bs else b :: insertSorted a bs

/-- Sort a list of strings by `strLeb` (insertion sort — the comparator
semantics of `Array.prototype.sort()` on these keys). -/
def sortStrs : List String → List String
  | [] => []
  | a :: as => insertSorted a (sortStrs as)

/-- `delete searchParams.userEmail; delete searchParams.refresh;` then
`Object.keys(searchParams).sort()`. -/
def sortedKeys (p : DirectorySearchParams) : List String :=
  sortStrs (p.keyOrder.filter (fun k => !(k == "userEmail" || k == "refresh")))

/-- The two query objects have the same five search fields (they differ at
most in key order, `refresh` and `userEmail`). -/
def sameSearchFields (p q : DirectorySearchParams) : Prop :=
  p.firstName = q.firstName ∧ p.lastName = q.lastName ∧ p.city = q.city ∧
    p.postalCode = q.postalCode ∧ p.gradeLevel = q.gradeLevel

instance (p : DirectorySearchParams) : Decidable p.WF :=
  inferInstanceAs (Decidable (_ ∧ _ ∧ _))

instance (p q : DirectorySearchParams) : Decidable (sameSearchFields p q) :=
  inferInstanceAs (Decidable (_ ∧ _ ∧ _ ∧ _ ∧ _))

/-- The present search keys, canonically ordered (specification-side view of
`sortedKeys`). -/
def presentSearchKeys (p : DirectorySearchParams) : List String :=
  searchFieldKeys.filter (fun k => (searchField p k).isSome)

/-- The key/value pairs serialized by the canonical `JSON.stringify`. -/
def canonPairs (p : DirectorySearchParams) : List (String × String) :=
  (sortedKeys p).filterMap (fun k => (searchField p k).map (fun v => (k, v)))

/-- The canonical JSON string hashed by `getCacheKey`. -/
def canonStr (p : DirectorySearchParams) : String := ⟨jsonObj (canonPairs p)⟩

/-- `hashEmail` (identical in MongoCredentialStore, MongoSearchCache,
SearchCache and UserManager): first 16 hex chars of SHA-256 of the
lowercased email. -/
def hashEmail (email : String) : String := (sha256hex (lowerStr email)).take 16

/-- `MongoSearchCache.getCacheKey`: SHA-256 hex of the canonical JSON of the
search parameters with `userEmail` and `refresh` removed. -/
def getCacheKey (p : DirectorySearchParams) : String := sha256hex (canonStr p)

/-! ### List models of the MongoDB collections -/

/-- `replaceOne(filter, doc, {upsert: true})` on a list of documents:
replace the first match, or append when no document matches. -/
def replaceOneBy {α : Type} (p : α → Bool) (doc : α) : List α → List α
  | [] => [doc]
  | d :: ds => if p d then doc :: ds else d :: replaceOneBy p doc ds

/-- `deleteOne(filter)`: remove the first matching document. -/
def deleteOneBy {α : Type} (p : α → Bool) : List α → List α
  | [] => []
  | d :: ds => if p d then ds else d :: deleteOneBy p ds

namespace MongoCredentialStore

/-- A document of the `credentials` collection. -/
structure CredDoc where
  userHash : String
  encryptedCredentials : String
  iv : String

/-- `deriveKey`: SHA-256 digest of master key concatenated with the email
*as given* (`masterKey + userEmail`, no lowercasing in the source). -/
def deriveKey (masterKey userEmail : String) : List Nat :=
  sha256Bytes (utf8Bytes (masterKey ++ userEmail))

/-- The `findOne({userHash})` inside `loadCredentials`; decryption then
operates only on the returned document. -/
def loadCredentialsDoc (db : List CredDoc) (userEmail : String) : Option CredDoc :=
  db.find? (fun d => d.userHash == hashEmail userEmail)

/-- `saveCredentials`: `replaceOne({userHash}, document, {upsert: true})`. -/
def saveCredentials (db : List CredDoc) (userEmail enc iv : String) : List CredDoc :=
  replaceOneBy (fun d => d.userHash == hashEmail userEmail)
    { userHash := hashEmail userEmail, encryptedCredentials := enc, iv := iv } db

/-- `clearCredentials`: `deleteOne({userHash})`. -/
def clearCredentials (db : List CredDoc) (userEmail : String) : List CredDoc :=
  deleteOneBy (fun d => d.userHash == hashEmail userEmail) db

end MongoCredentialStore

namespace MongoSearchCache

/-- A document of the `cache` collection. -/
structure CacheDoc (α : Type) where
  userHash : String
  searchHash : String
  data : α
  timestamp : Nat
  expiresAt : Nat

/-- The `findOne({userHash, searchHash, expiresAt: {$gt: now}})` of `get`. -/
def getDoc {α : Type} (db : List (CacheDoc α)) (userEmail : String)
    (p : DirectorySearchParams) (now : Nat) : Option (CacheDoc α) :=
  db.find? (fun d =>
    d.userHash == hashEmail userEmail && d.searchHash == getCacheKey p &&
      now < d.expiresAt)

/-- `MongoSearchCache.get`: the data of the found unexpired document. -/
def get {α : Type} (db : List (CacheDoc α)) (userEmail : String)
    (p : DirectorySearchParams) (now : Nat) : Option α :=
  (getDoc db userEmail p now).map (fun d => d.data)

/-- `MongoSearchCache.set`: upsert the entry with
`expiresAt = now + lifetimeHours * 3600000` ms. -/
def set {α : Type} (db : List (CacheDoc α)) (userEmail : String)
    (p : DirectorySearchParams) (data : α) (now lifetimeHours : Nat) :
    List (CacheDoc α) :=
  replaceOneBy
    (fun d => d.userHash == hashEmail userEmail && d.searchHash == getCacheKey p)
    { userHash := hashEmail userEmail, searchHash := getCacheKey p, data := data,
      timestamp := now, expiresAt := now + lifetimeHours * 3600000 } db

/-- `MongoSearchCache.clear(params)`: `deleteOne({userHash, searchHash})`. -/
def clearOne {α : Type} (db : List (CacheDoc α)) (userEmail : String)
    (p : DirectorySearchParams) : List (CacheDoc α) :=
  deleteOneBy
    (fun d => d.userHash == hashEmail userEmail && d.searchHash == getCacheKey p) db

/-- `MongoSearchCache.clear()` without params: `deleteMany({userHash})`. -/
def clearAll {α : Type} (db : List (CacheDoc α)) (userEmail : String) :
    List (CacheDoc α) :=
  db.filter (fun d => !(d.userHash == hashEmail userEmail))

end MongoSearchCache

namespace SearchCache

/-- The JSON blob of one file cache entry (file-based SearchCache). -/
structure FileCacheEntry (α : Type) where
  data : α
  timestamp : Nat
  expiresAt : Nat

/-- `SearchCache.get`: the cache file's parsed content (or `none` when the
file is missing/corrupt); expired entries read as a miss. -/
def get {α : Type} (file : Option (FileCacheEntry α)) (now : Nat) : Option α :=
  match file with
  | none => none
  | some e => if now > e.expiresAt then none else some e.data

end SearchCache

namespace UserManager

/-- A document of the `users` collection.  The `createdAt`/`lastUsed`
timestamps are omitted: every write stores a fresh `new Date()` there, so
they carry no information for the flag invariants. -/
structure UserConfig where
  userHash : String
  email : String
  isDefault : Bool

/-- `updateMany({}, {$set: {isDefault: false}})`. -/
def clearAllDefaults (db : List UserConfig) : List UserConfig :=
  db.map (fun u => { u with isDefault := false })

/-- `updateMany({isDefault: true}, {$set: {isDefault: false}})`. -/
def clearFlaggedDefaults (db : List UserConfig) : List UserConfig :=
  db.map (fun u => if u.isDefault then { u with isDefault := false } else u)

/-- `updateOne({userHash}, {$set: {isDefault: true, ...}})`: update the first
matching document; also report whether anything matched (`matchedCount`). -/
def updateOneSetDefault (hash : String) : List UserConfig → List UserConfig × Bool
  | [] => ([], false)
  | u :: us =>
    if u.userHash == hash then ({ u with isDefault := true } :: us, true)
    else
      let r := updateOneSetDefault hash us
      (u :: r.1, r.2)

/-- `UserManager.addUser`: clear other defaults when `isDefault`, then
`replaceOne({userHash}, config, {upsert: true})` with the lowercased email. -/
def addUser (db : List UserConfig) (email : String) (isDefault : Bool) :
    List UserConfig :=
  let userHash := hashEmail email
  let cfg : UserConfig := { userHash := userHash, email := lowerStr email,
                            isDefault := isDefault }
  let db1 := if isDefault then clearFlaggedDefaults db else db
  replaceOneBy (fun u => u.userHash == userHash) cfg db1

/-- `UserManager.setDefaultUser`: clear every default, set the flag on the
matching record, and fall back to `addUser(email, true)` when absent. -/
def setDefaultUser (db : List UserConfig) (email : String) : List UserConfig :=
  let userHash := hashEmail email
  let db1 := clearAllDefaults db
  let r := updateOneSetDefault userHash db1
  if r.2 then r.1 else addUser r.1 email true

/-- `setDefaultUser` with the derived hash and lowercased email passed as
arguments (definitionally equal to `setDefaultUser db email` at
`hh := hashEmail email`, `le := lowerStr email`). -/
def setDefaultWith (db : List UserConfig) (hh le : String) : List UserConfig :=
  let db1 := clearAllDefaults db
  let r := updateOneSetDefault hh db1
  if r.2 then r.1
  else replaceOneBy (fun u => u.userHash == hh)
    { userHash := hh, email := le, isDefault := true } (clearFlaggedDefaults r.1)

/-- Number of records carrying the default flag. -/
def countDefaults (db : List UserConfig) : Nat :=
  (db.filter (fun u => u.isDefault)).length

end UserManager

namespace VeracrossAuth

/-- The visible shape of a `node-fetch` response after redirects were
followed: final status and final URL. -/
structure ProbeResponse where
  status : Nat
  url : String

/-- `response.ok`: status in the range 200..299. -/
def ProbeResponse.ok (r : ProbeResponse) : Bool :=
  decide (200 ≤ r.status) && decide (r.status < 300)

/-- The stored `password` field of a credentials document, as the
`JSON.parse` try/catch in the source resolves it: either a raw password
string (parse throws) or a parsed session-data object. -/
inductive StoredPw where
  | rawPassword (p : String)
  | sessionJson (cookies : Option String) (userAgent : Option String)

/-- JavaScript truthiness of `credentials.password` for a stored blob. -/
def StoredPw.truthy : StoredPw → Bool
  | .rawPassword p => p ≠ ""
  | .sessionJson _ _ => true

/-- The way `ensureAuthenticated` (src/unnamed/part_001) terminates. -/
inductive AuthOutcome where
  | cachedTrust
  | trustedStoredSession
  | passwordLoginAttempt
  | browserAuthFallback
deriving DecidableEq

/-- The probe condition of `ensureAuthenticated`:
`testResponse.ok && !testResponse.url.includes('login')` (a thrown probe is
`none`). -/
def probeValid : Option ProbeResponse → Bool
  | none => false
  | some r => r.ok && !(strIncludes r.url "login")

/-- Control flow of `VeracrossAuth.ensureAuthenticated` (part_001 lines
225-261): cached trust, else hydrate a stored session and probe it, else
fall back to password login (raw stored password) or browser auth. -/
def ensureAuthenticated (isAuthenticated : Bool) (currentMatches : Bool)
    (sessionLoaded : Bool) (probe : Option ProbeResponse)
    (stored : Option StoredPw) : AuthOutcome :=
  if isAuthenticated && currentMatches then .cachedTrust
  else if sessionLoaded && probeValid probe then .trustedStoredSession
  else
    match stored with
    | some (.rawPassword p) =>
      if p ≠ "" then .passwordLoginAttempt else .browserAuthFallback
    | _ => .browserAuthFallback

/-- The in-memory mutable state of the `VeracrossAuth` singleton: current
user, trusted flag, and the cookie jar (name/value pairs; `tough-cookie`
replaces a cookie with the same key, so the jar is keyed by name). -/
structure AuthState where
  currentUserEmail : Option String
  isAuthenticated : Bool
  hasStore : Bool
  cookieJar : List (String × String)

/-- `cookieJar.setCookie`: replace the cookie with the same name, or add. -/
def setCookie (jar : List (String × String)) (c : String × String) :
    List (String × String) :=
  if jar.any (fun e => e.1 == c.1) then
    jar.map (fun e => if e.1 == c.1 then c else e)
  else jar ++ [c]

/-- `ensureCredentialStore` / `ensureBrowserAuthServer`: on a user switch,
recreate the per-user store, remember the new user and reset the trusted
flag — the cookie jar is left as it is. -/
def ensureCredentialStore (st : AuthState) (userEmail : String) : AuthState :=
  if !st.hasStore || st.currentUserEmail ≠ some userEmail then
    { st with currentUserEmail := some userEmail, isAuthenticated := false,
              hasStore := true }
  else st

/-- `loadStoredSession` (part_001): after `ensureCredentialStore`, split the
stored cookie string and `setCookie` each cookie into the existing jar.
`storedCookies` is the parsed stored session cookie list for this user
(`none`: no stored JSON session). -/
def loadStoredSession (st : AuthState) (userEmail : String)
    (storedCookies : Option (List (String × String))) : AuthState × Bool :=
  let st1 := ensureCredentialStore st userEmail
  match storedCookies with
  | some cs =>
    ({ st1 with cookieJar := cs.foldl setCookie st1.cookieJar,
                isAuthenticated := true }, true)
  | none => (st1, false)

/-- What `makeAuthenticatedRequest` does with a request. -/
inductive ReqResult where
  | error (msg : String)
  | directFetch (cookieHeader : String) (userAgent : String)
  | viaCookieJar
deriving DecidableEq

/-- The default User-Agent used for direct cross-domain requests. -/
def fallbackUA : String :=
  "Mozilla/5.0 (Macintosh; Intel Mac OS X 10_15_7) AppleWebKit/537.36 (KHTML, like Gecko) Chrome/120.0.0.0 Safari/537.36"

/-- `VeracrossAuth.makeAuthenticatedRequest` (part_001 lines 263-309):
cross-domain requests bypass the jar and carry the stored session's raw
cookie string; each missing-data case throws a distinct error. -/
def makeAuthenticatedRequest (currentUserEmail : Option String)
    (urlHost baseUrlHost : String) (stored : Option StoredPw) : ReqResult :=
  match currentUserEmail with
  | none => .error "No user email set. Please authenticate first."
  | some _ =>
    if urlHost ≠ baseUrlHost then
      match stored with
      | none => .error "No stored credentials found for cross-domain request"
      | some blob =>
        if !blob.truthy then
          .error "No stored credentials found for cross-domain request"
        else
          match blob with
          | .rawPassword _ => .error "Invalid session data for cross-domain request"
          | .sessionJson cookies ua =>
            match cookies with
            | none => .error "No session cookies found for cross-domain request"
            | some c =>
              if c = "" then .error "No session cookies found for cross-domain request"
              else .directFetch c (match ua with
                | some u => if u = "" then fallbackUA else u
                | none => fallbackUA)
    else .viaCookieJar

/-- The cookie material a same-domain `makeRequest` attaches
(`this.cookieJar.getCookieString(url)`): the jar's entries. -/
def getCookieString (st : AuthState) : List (String × String) := st.cookieJar

/-- The stored-session cookie string usable by a cross-domain request:
present exactly when the stored blob is parsed session JSON with a truthy
`cookies` field. -/
def sessionCookieOf : Option StoredPw → Option String
  | some (.sessionJson (some c) _) => if c = "" then none else some c
  | _ => none

/-- The classification inside `VeracrossAuth.login` (src/auth.ts lines
104-121): a 302/200 with a non-login `Location` is success, and otherwise
the body check runs for *any* status. -/
def loginClassify (status : Nat) (location : Option String) (body : String) :
    Bool :=
  if (status == 302 || status == 200) &&
      (match location with
       | some l => (l ≠ "") && !(strIncludes l "login")
       | none => false) then
    true
  else !(strIncludes body "Invalid") && !(strIncludes body "error")

end VeracrossAuth

namespace BrowserAuthServer

/-- The classification inside `BrowserAuthServer.handleLoginSubmission`
(src/browser-auth.ts lines 464-487). -/
def handleLoginClassify (status : Nat) (location : Option String)
    (body : String) : Bool :=
  if status == 302 then
    match location with
    | some l => (l ≠ "") && !(strIncludes l "login")
    | none => false
  else if status == 200 then
    !(strIncludes body "Invalid") && !(strIncludes body "incorrect") &&
      !(strIncludes body "error") && strIncludes body "parent"
  else false

/-- Listener state of the ephemeral auth server. -/
structure FlowState where
  listening : Bool
  resolved : Option Bool

/-- `BrowserAuthServer.close`: stop the HTTP listener. -/
def close (s : FlowState) : FlowState := { s with listening := false }

/-- `startAuthFlow` (src/browser-auth.ts lines 594-634) as a function of how
the invocation terminates: `threw` is the catch path; otherwise
`authResolved` is whether (and with what value) the auth promise resolved
within the 10-minute window — `none` covers both a plain timeout and a
rejected attempt that was never resolved before the timeout.  Every path
calls `close()` after the race (or in the catch). -/
def startAuthFlow (threw : Bool) (authResolved : Option Bool) :
    Bool × FlowState :=
  let s0 : FlowState := { listening := true, resolved := none }
  if threw then (false, close s0)
  else
    let raceResult := match authResolved with
      | some b => b
      | none => false
    (raceResult, close { s0 with resolved := authResolved })

end BrowserAuthServer

/-! ### Sample data for witnesses and counterexamples -/

/-- A sample query with the volatile fields set. -/
def pSample : DirectorySearchParams :=
  { firstName := some "John", lastName := none, city := some "Columbus",
    postalCode := none, gradeLevel := none, refresh := some true,
    userEmail := some "alice@example.com",
    keyOrder := ["userEmail", "firstName", "refresh", "city"] }

/-- The same query without the volatile fields, in another key order. -/
def qSample : DirectorySearchParams :=
  { firstName := some "John", lastName := none, city := some "Columbus",
    postalCode := none, gradeLevel := none, refresh := none,
    userEmail := none, keyOrder := ["city", "firstName"] }

/-- A query differing from `qSample` in a search field. -/
def rSample : DirectorySearchParams :=
  { firstName := some "Jane", lastName := none, city := some "Columbus",
    postalCode := none, gradeLevel := none, refresh := none,
    userEmail := none, keyOrder := ["city", "firstName"] }

/-- An in-memory auth state currently serving alice, with a live cookie. -/
def stSampleA : VeracrossAuth.AuthState :=
  { currentUserEmail := some "alice@example.com", isAuthenticated := true,
    hasStore := true, cookieJar := [("sessA", "1")] }

/-- A cache collection holding one of alice's entries, already expired. -/
def cacheSample : List (MongoSearchCache.CacheDoc Nat) :=
  [{ userHash := hashEmail "alice@example.com", searchHash := getCacheKey qSample,
     data := 7, timestamp := 0, expiresAt := 5 }]

/-- A credentials collection holding alice's encrypted blob. -/
def credSample : List MongoCredentialStore.CredDoc :=
  [{ userHash := hashEmail "alice@example.com",
     encryptedCredentials := "00ab", iv := "0102" }]

end Portal

/-! ## Theorems -/

namespace Portal

/-- Helper: an entry of the jar whose name differs from the set cookie's
name survives `setCookie`. -/
theorem mem_setCookie_of_ne (jar : List (String × String)) (c c2 : String × String)
    (h : c ∈ jar) (hne : c2.1 ≠ c.1) : c ∈ VeracrossAuth.setCookie jar c2 := by
  unfold VeracrossAuth.setCookie
  split
  · have hc : (c.1 == c2.1) = false := by
      simp only [beq_eq_false_iff_ne]
      exact fun hh => hne hh.symm
    have := List.mem_map_of_mem (fun e => if e.1 == c2.1 then c2 else e) h
    simpa [hc] using this
  · exact List.mem_append_left _ h

/-- Helper: merging a batch of cookies whose names all differ from `c.1`
keeps `c` in the jar. -/
theorem mem_foldl_setCookie (cs : List (String × String)) (jar : List (String × String))
    (c : String × String) (h : c ∈ jar) (hfresh : ∀ c2 ∈ cs, c2.1 ≠ c.1) :
    c ∈ cs.foldl VeracrossAuth.setCookie jar := by
  induction cs generalizing jar with
  | nil => simpa using h
  | cons c2 cs ih =>
    simp only [List.foldl_cons]
    exact ih _ (mem_setCookie_of_ne jar c c2 h (hfresh c2 (by simp)))
      (fun x hx => hfresh x (by simp [hx]))

/-- C2: after hydrating a stored session, `ensureAuthenticated` trusts it
exactly when the probe response is ok and its final URL does not contain
"login"; in particular a 200 whose final URL contains "login" fails the
probe condition. -/
theorem ensureAuthenticated_probe_trust (isAuth currentMatches sessionLoaded : Bool)
    (probe : Option VeracrossAuth.ProbeResponse)
    (stored : Option VeracrossAuth.StoredPw) :
    (VeracrossAuth.ensureAuthenticated isAuth currentMatches sessionLoaded probe
        stored = VeracrossAuth.AuthOutcome.trustedStoredSession ↔
      (isAuth && currentMatches) = false ∧ sessionLoaded = true ∧
        VeracrossAuth.probeValid probe = true) ∧
    VeracrossAuth.probeValid
      (some { status := 200, url := "https://accounts.veracross.com/csg/login" }) =
      false := by
  constructor
  · cases h1 : (isAuth && currentMatches) <;> cases h2 : sessionLoaded <;>
      cases h3 : VeracrossAuth.probeValid probe <;>
      rcases stored with _ | (p | ⟨cks, ua⟩) <;>
      simp [VeracrossAuth.ensureAuthenticated, h1, h2, h3] <;>
      split <;> simp
  · decide

/-- C4 counterexample: with the channel serving alice (cookie `sessA`),
`ensureAuthenticated("bob@…")`'s session hydration switches the current
user and re-marks the channel authenticated, yet alice's cookie is still in
the jar that `makeRequest` sends for bob. -/
theorem cookieJar_survives_user_switch :
    ((VeracrossAuth.loadStoredSession stSampleA "bob@example.com"
        (some [("sessB", "2")])).1.currentUserEmail = some "bob@example.com") ∧
    ((VeracrossAuth.loadStoredSession stSampleA "bob@example.com"
        (some [("sessB", "2")])).1.isAuthenticated = true) ∧
    ("sessA", "1") ∈ VeracrossAuth.getCookieString
      (VeracrossAuth.loadStoredSession stSampleA "bob@example.com"
        (some [("sessB", "2")])).1 := by
  decide

/-- C4 (amended): a user switch resets the trusted flag and the current
user but leaves the cookie jar untouched, and hydrating the new user's
stored cookies merges them into that jar, preserving every old cookie whose
name is not among the new ones. -/
theorem userSwitch_resets_flag_not_jar (st : VeracrossAuth.AuthState) (u : String)
    (hdiff : st.currentUserEmail ≠ some u) (cs : List (String × String)) :
    (VeracrossAuth.ensureCredentialStore st u).isAuthenticated = false ∧
    (VeracrossAuth.ensureCredentialStore st u).currentUserEmail = some u ∧
    (VeracrossAuth.ensureCredentialStore st u).cookieJar = st.cookieJar ∧
    ∀ c ∈ st.cookieJar, (∀ c2 ∈ cs, c2.1 ≠ c.1) →
      c ∈ VeracrossAuth.getCookieString
        (VeracrossAuth.loadStoredSession st u (some cs)).1 := by
  have hstore : VeracrossAuth.ensureCredentialStore st u =
      { st with currentUserEmail := some u, isAuthenticated := false,
                hasStore := true } := by
    unfold VeracrossAuth.ensureCredentialStore
    split
    · rfl
    · rename_i hcond
      exact absurd ((by simpa using hcond :
        st.hasStore = true ∧ st.currentUserEmail = some u).2) hdiff
  refine ⟨by rw [hstore], by rw [hstore], by rw [hstore], ?_⟩
  intro c hc hfresh
  unfold VeracrossAuth.loadStoredSession
  simp only [hstore, VeracrossAuth.getCookieString]
  exact mem_foldl_setCookie cs _ c hc hfresh

/-- Witness for `userSwitch_resets_flag_not_jar` at a concrete state. -/
theorem userSwitch_resets_flag_not_jar_witness :
    stSampleA.currentUserEmail ≠ some "bob@example.com" ∧
    (VeracrossAuth.ensureCredentialStore stSampleA "bob@example.com").isAuthenticated
      = false :=
  ⟨by decide,
    (userSwitch_resets_flag_not_jar stSampleA "bob@example.com" (by decide)
      [("sessB", "2")]).1⟩

/-- C7: `startAuthFlow` tears the listener down on every terminal outcome
(captured session, timeout — which also ends a rejected attempt — or a
thrown error), and reports success exactly when the auth promise resolved
true before the timeout. -/
theorem startAuthFlow_releases_listener (threw : Bool) (ar : Option Bool) :
    ((BrowserAuthServer.startAuthFlow threw ar).2.listening = false) ∧
    ((BrowserAuthServer.startAuthFlow threw ar).1 = true ↔
      threw = false ∧ ar = some true) := by
  cases threw <;> rcases ar with _ | b <;>
    simp [BrowserAuthServer.startAuthFlow, BrowserAuthServer.close]

/-- C5 (code bug): `hashEmail` identifies the two casings of an email, but
`deriveKey` hashes `masterKey + userEmail` without lowercasing, so the two
casings derive different keys — unlike the spec's
`hash(masterKey ++ lowercase identity)`, shown as the third conjunct. -/
theorem deriveKey_not_lowercased :
    hashEmail "Parent@Example.com" = hashEmail "parent@example.com" ∧
    MongoCredentialStore.deriveKey "master" "Parent@Example.com" ≠
      MongoCredentialStore.deriveKey "master" "parent@example.com" ∧
    MongoCredentialStore.deriveKey "master" "parent@example.com" =
      sha256Bytes (utf8Bytes ("master" ++ lowerStr "Parent@Example.com")) := by
  refine ⟨by decide, by decide, by decide⟩

/-- C3 counterexample: `VeracrossAuth.login` classifies a 404 with a clean
body as success (no redirect, no failure marker — an ambiguous response),
while `handleLoginSubmission` rejects a 200 with a clean body that merely
lacks the substring "parent". -/
theorem loginClassify_ambiguous_success :
    VeracrossAuth.loginClassify 404 none "Page Not Found" = true ∧
    BrowserAuthServer.handleLoginClassify 200 none "Welcome back home" = false := by
  decide

/-- C6: a cross-domain `makeAuthenticatedRequest` bypasses the cookie jar
and sends the stored session's raw cookie string; with no usable stored
session cookies it throws one of three distinct labeled errors. -/
theorem makeAuthenticatedRequest_cross_domain (ue urlHost baseHost : String)
    (stored : Option VeracrossAuth.StoredPw) (hcross : urlHost ≠ baseHost) :
    (∀ c, VeracrossAuth.sessionCookieOf stored = some c →
      ∃ ua, VeracrossAuth.makeAuthenticatedRequest (some ue) urlHost baseHost
        stored = VeracrossAuth.ReqResult.directFetch c ua) ∧
    (VeracrossAuth.sessionCookieOf stored = none →
      ∃ msg, VeracrossAuth.makeAuthenticatedRequest (some ue) urlHost baseHost
          stored = VeracrossAuth.ReqResult.error msg ∧
        (msg = "No stored credentials found for cross-domain request" ∨
         msg = "Invalid session data for cross-domain request" ∨
         msg = "No session cookies found for cross-domain request")) := by
  constructor
  · intro c hc
    rcases stored with _ | (p | ⟨cks, ua⟩) <;>
      simp [VeracrossAuth.sessionCookieOf] at hc
    rcases cks with _ | c2 <;> simp at hc
    rcases hc with ⟨hne, rfl⟩
    exact ⟨(match ua with
        | some u => if u = "" then VeracrossAuth.fallbackUA else u
        | none => VeracrossAuth.fallbackUA), by
      simp [VeracrossAuth.makeAuthenticatedRequest, hcross,
        VeracrossAuth.StoredPw.truthy, hne]⟩
  · intro hc
    rcases stored with _ | (p | ⟨cks, ua⟩)
    · exact ⟨"No stored credentials found for cross-domain request",
        by simp [VeracrossAuth.makeAuthenticatedRequest, hcross], Or.inl rfl⟩
    · by_cases hp : p = ""
      · exact ⟨"No stored credentials found for cross-domain request",
          by simp [VeracrossAuth.makeAuthenticatedRequest, hcross,
            VeracrossAuth.StoredPw.truthy, hp], Or.inl rfl⟩
      · exact ⟨"Invalid session data for cross-domain request",
          by simp [VeracrossAuth.makeAuthenticatedRequest, hcross,
            VeracrossAuth.StoredPw.truthy, hp], Or.inr (Or.inl rfl)⟩
    · rcases cks with _ | c2
      · exact ⟨"No session cookies found for cross-domain request",
          by simp [VeracrossAuth.makeAuthenticatedRequest, hcross,
            VeracrossAuth.StoredPw.truthy], Or.inr (Or.inr rfl)⟩
      · have hc2 : c2 = "" := by
          by_contra hne
          simp [VeracrossAuth.sessionCookieOf, hne] at hc
        exact ⟨"No session cookies found for cross-domain request",
          by simp [VeracrossAuth.makeAuthenticatedRequest, hcross,
            VeracrossAuth.StoredPw.truthy, hc2], Or.inr (Or.inr rfl)⟩

/-- Witness for `makeAuthenticatedRequest_cross_domain` on a concrete
cross-domain hop with a stored session. -/
theorem makeAuthenticatedRequest_cross_domain_witness :
    ("accounts.veracross.com" : String) ≠ "portals.veracross.com" ∧
    ∃ ua, VeracrossAuth.makeAuthenticatedRequest (some "alice@example.com")
        "accounts.veracross.com" "portals.veracross.com"
        (some (VeracrossAuth.StoredPw.sessionJson (some "vxsess=abc") none)) =
      VeracrossAuth.ReqResult.directFetch "vxsess=abc" ua :=
  ⟨by decide,
    (makeAuthenticatedRequest_cross_domain "alice@example.com"
      "accounts.veracross.com" "portals.veracross.com"
      (some (VeracrossAuth.StoredPw.sessionJson (some "vxsess=abc") none))
      (by decide)).1 "vxsess=abc" (by decide)⟩

end Portal

namespace Portal

/-- Helper: totality of the lexicographic comparison. -/
theorem listLeb_total (a b : List Char) : listLeb a b = true ∨ listLeb b a = true := by
  induction a generalizing b with
  | nil => left; rfl
  | cons c cs ih =>
    cases b with
    | nil => right; rfl
    | cons d ds =>
      by_cases h1 : c.toNat < d.toNat
      · left; simp [listLeb, h1]
      · by_cases h2 : d.toNat < c.toNat
        · right; simp [listLeb, h2]
        · rcases ih ds with h | h
          · left; simp [listLeb, h1, h2, h]
          · right; simp [listLeb, h1, h2, h]

/-- Helper: antisymmetry of the lexicographic comparison. -/
theorem listLeb_antisymm (a b : List Char) (h1 : listLeb a b = true)
    (h2 : listLeb b a = true) : a = b := by
  induction a generalizing b with
  | nil =>
    cases b with
    | nil => rfl
    | cons d ds => simp [listLeb] at h2
  | cons c cs ih =>
    cases b with
    | nil => simp [listLeb] at h1
    | cons d ds =>
      by_cases hcd : c.toNat < d.toNat
      · simp [listLeb, Nat.lt_asymm hcd, Nat.lt_irrefl, hcd] at h2
      · by_cases hdc : d.toNat < c.toNat
        · simp [listLeb, hcd, hdc] at h1
        · have hnat : c.toNat = d.toNat := by omega
          have hch : c = d := Char.ext (UInt32.ext hnat)
          subst hch
          simp only [listLeb, Nat.lt_irrefl, if_false] at h1 h2
          rw [ih ds h1 h2]

/-- Helper: transitivity of the lexicographic comparison. -/
theorem listLeb_trans (a b c : List Char) (h1 : listLeb a b = true)
    (h2 : listLeb b c = true) : listLeb a c = true := by
  induction a generalizing b c with
  | nil => rfl
  | cons x xs ih =>
    cases b with
    | nil => simp [listLeb] at h1
    | cons y ys =>
      cases c with
      | nil => simp [listLeb] at h2
      | cons z zs =>
        by_cases hxy : x.toNat < y.toNat
        · by_cases hyz : y.toNat < z.toNat
          · simp [listLeb, Nat.lt_trans hxy hyz]
          · by_cases hzy : z.toNat < y.toNat
            · simp [listLeb, hyz, hzy] at h2
            · have : y.toNat = z.toNat := by omega
              simp [listLeb, this ▸ hxy]
        · by_cases hyx : y.toNat < x.toNat
          · simp [listLeb, hxy, hyx] at h1
          · have hxynat : x.toNat = y.toNat := by omega
            simp only [listLeb, hxy, hyx, if_false] at h1
            by_cases hyz : y.toNat < z.toNat
            · simp [listLeb, hxynat ▸ hyz]
            · by_cases hzy : z.toNat < y.toNat
              · simp [listLeb, hyz, hzy] at h2
              · simp only [listLeb, hyz, hzy, if_false] at h2
                have hxz : ¬x.toNat < z.toNat ∧ ¬z.toNat < x.toNat := by omega
                simp [listLeb, hxz.1, hxz.2, ih ys zs h1 h2]

/-- Helper: totality of `strLeb`. -/
theorem strLeb_total (a b : String) : strLeb a b = true ∨ strLeb b a = true :=
  listLeb_total a.data b.data

/-- Helper: antisymmetry of `strLeb`. -/
theorem strLeb_antisymm (a b : String) (h1 : strLeb a b = true)
    (h2 : strLeb b a = true) : a = b := by
  apply String.ext
  exact listLeb_antisymm a.data b.data h1 h2

/-- Helper: transitivity of `strLeb`. -/
theorem strLeb_trans (a b c : String) (h1 : strLeb a b = true)
    (h2 : strLeb b c = true) : strLeb a c = true :=
  listLeb_trans a.data b.data c.data h1 h2

/-- Helper: `insertSorted` permutes the consed list. -/
theorem insertSorted_perm (a : String) (l : List String) :
    (insertSorted a l).Perm (a :: l) := by
  induction l with
  | nil => simp [insertSorted]
  | cons b bs ih =>
    by_cases h : strLeb a b = true
    · simp [insertSorted, h]
    · simp only [insertSorted, h, if_false]
      exact ((ih.cons b).trans (List.Perm.swap a b bs): _)

/-- Helper: `sortStrs` permutes its input. -/
theorem sortStrs_perm (l : List String) : (sortStrs l).Perm l := by
  induction l with
  | nil => simp [sortStrs]
  | cons a as ih =>
    exact (insertSorted_perm a (sortStrs as)).trans (ih.cons a)

/-- Helper: `insertSorted` preserves sortedness. -/
theorem insertSorted_pairwise (a : String) (l : List String)
    (hl : l.Pairwise (fun x y => strLeb x y = true)) :
    (insertSorted a l).Pairwise (fun x y => strLeb x y = true) := by
  induction l with
  | nil => simp [insertSorted]
  | cons b bs ih =>
    rcases List.pairwise_cons.mp hl with ⟨hb, hbs⟩
    by_cases h : strLeb a b = true
    · simp only [insertSorted, h, if_true]
      refine List.pairwise_cons.mpr ⟨?_, hl⟩
      intro x hx
      rcases List.mem_cons.mp hx with h3 | h3
      · exact h3 ▸ h
      · exact strLeb_trans a b x h (hb x h3)
    · have hba : strLeb b a = true := by
        rcases strLeb_total a b with h1 | h1
        · exact absurd h1 h
        · exact h1
      simp only [insertSorted, h, if_false]
      refine List.pairwise_cons.mpr ⟨?_, ih hbs⟩
      intro x hx
      have hx2 : x ∈ a :: bs := (insertSorted_perm a bs).mem_iff.mp hx
      rcases List.mem_cons.mp hx2 with h3 | h3
      · exact h3 ▸ hba
      · exact hb x h3

/-- Helper: `sortStrs` sorts. -/
theorem sortStrs_pairwise (l : List String) :
    (sortStrs l).Pairwise (fun x y => strLeb x y = true) := by
  induction l with
  | nil => simp [sortStrs]
  | cons a as ih => exact insertSorted_pairwise a (sortStrs as) ih

/-- Helper: sorted permutations agree. -/
theorem sorted_perm_eq (l1 l2 : List String)
    (h1 : l1.Pairwise (fun x y => strLeb x y = true))
    (h2 : l2.Pairwise (fun x y => strLeb x y = true)) (hp : l1.Perm l2) :
    l1 = l2 := by
  haveI : IsAntisymm String (fun x y => strLeb x y = true) :=
    ⟨fun x y hx hy => strLeb_antisymm x y hx hy⟩
  exact List.eq_of_perm_of_sorted hp h1 h2

/-- Helper: sorting a permutation of `l` equals sorting `l`. -/
theorem sortStrs_eq_of_perm (l1 l2 : List String) (h : l1.Perm l2) :
    sortStrs l1 = sortStrs l2 :=
  sorted_perm_eq _ _ (sortStrs_pairwise l1) (sortStrs_pairwise l2)
    ((sortStrs_perm l1).trans (h.trans (sortStrs_perm l2).symm))

/-- Helper: sorting a sorted list is the identity. -/
theorem sortStrs_of_pairwise (l : List String)
    (h : l.Pairwise (fun x y => strLeb x y = true)) : sortStrs l = l :=
  sorted_perm_eq _ _ (sortStrs_pairwise l) h (sortStrs_perm l)

/-- C8: a cache entry whose expiry has passed reads as a miss even while
the row is still physically present — in the MongoDB cache through the
`expiresAt: {$gt: now}` filter, and in the file cache through the read-time
comparison. -/
theorem cacheGet_expired_is_miss {α : Type} (db : List (MongoSearchCache.CacheDoc α))
    (ue : String) (p : DirectorySearchParams) (now : Nat)
    (hexp : ∀ d ∈ db, d.userHash = hashEmail ue → d.searchHash = getCacheKey p →
      d.expiresAt ≤ now) :
    MongoSearchCache.get db ue p now = none ∧
    ∀ (e : SearchCache.FileCacheEntry α) (nowF : Nat), e.expiresAt < nowF →
      SearchCache.get (some e) nowF = none := by
  constructor
  · have hdoc : MongoSearchCache.getDoc db ue p now = none := by
      rw [MongoSearchCache.getDoc, List.find?_eq_none]
      intro d hd hcontra
      simp only [Bool.and_eq_true, beq_iff_eq, decide_eq_true_eq] at hcontra
      exact absurd hcontra.2 (Nat.not_lt.mpr (hexp d hd hcontra.1.1 hcontra.1.2))
    simp [MongoSearchCache.get, hdoc]
  · intro e nowF h
    simp [SearchCache.get, h]

/-- Witness for `cacheGet_expired_is_miss` on a concrete expired row. -/
theorem cacheGet_expired_is_miss_witness :
    (∀ d ∈ cacheSample, d.userHash = hashEmail "alice@example.com" →
      d.searchHash = getCacheKey qSample → d.expiresAt ≤ 10) ∧
    MongoSearchCache.get cacheSample "alice@example.com" qSample 10 = none :=
  ⟨by decide,
    (cacheGet_expired_is_miss cacheSample "alice@example.com" qSample 10
      (by decide)).1⟩

end Portal

namespace Portal

/-- Unfolding: `clearAllDefaults` on a cons. -/
theorem clearAllDefaults_cons (u : UserManager.UserConfig)
    (us : List UserManager.UserConfig) :
    UserManager.clearAllDefaults (u :: us) =
      { u with isDefault := false } :: UserManager.clearAllDefaults us := rfl

/-- Unfolding: `clearFlaggedDefaults` on a cons. -/
theorem clearFlaggedDefaults_cons (u : UserManager.UserConfig)
    (us : List UserManager.UserConfig) :
    UserManager.clearFlaggedDefaults (u :: us) =
      (if u.isDefault then { u with isDefault := false } else u) ::
        UserManager.clearFlaggedDefaults us := rfl

/-- Unfolding: `updateOneSetDefault` on a cons. -/
theorem updateOneSetDefault_cons (h : String) (u : UserManager.UserConfig)
    (us : List UserManager.UserConfig) :
    UserManager.updateOneSetDefault h (u :: us) =
      if u.userHash == h then ({ u with isDefault := true } :: us, true)
      else (u :: (UserManager.updateOneSetDefault h us).1,
        (UserManager.updateOneSetDefault h us).2) := rfl

/-- Unfolding: `countDefaults` on a cons. -/
theorem countDefaults_cons (u : UserManager.UserConfig)
    (us : List UserManager.UserConfig) :
    UserManager.countDefaults (u :: us) =
      (if u.isDefault then 1 else 0) + UserManager.countDefaults us := by
  cases h : u.isDefault <;>
    simp [UserManager.countDefaults, List.filter_cons, h, Nat.add_comm]

/-- Unfolding: `addUser` without its let-bindings. -/
theorem addUser_eq (db : List UserManager.UserConfig) (email : String)
    (isDefault : Bool) :
    UserManager.addUser db email isDefault =
      replaceOneBy (fun u => u.userHash == hashEmail email)
        { userHash := hashEmail email, email := lowerStr email,
          isDefault := isDefault }
        (if isDefault then UserManager.clearFlaggedDefaults db else db) := rfl

/-- Unfolding: `setDefaultUser` without its let-bindings. -/
theorem setDefaultUser_eq (db : List UserManager.UserConfig) (email : String) :
    UserManager.setDefaultUser db email =
      if (UserManager.updateOneSetDefault (hashEmail email)
          (UserManager.clearAllDefaults db)).2 = true then
        (UserManager.updateOneSetDefault (hashEmail email)
          (UserManager.clearAllDefaults db)).1
      else
        UserManager.addUser (UserManager.updateOneSetDefault (hashEmail email)
          (UserManager.clearAllDefaults db)).1 email true := rfl

/-- Helper: `clearAllDefaults` distributes over append. -/
theorem clearAllDefaults_append (l1 l2 : List UserManager.UserConfig) :
    UserManager.clearAllDefaults (l1 ++ l2) =
      UserManager.clearAllDefaults l1 ++ UserManager.clearAllDefaults l2 :=
  List.map_append _ _ _

/-- Helper: every record is non-default after `clearAllDefaults`. -/
theorem clearAllDefaults_allFalse (db : List UserManager.UserConfig) :
    ∀ u ∈ UserManager.clearAllDefaults db, u.isDefault = false := by
  intro u hu
  rcases List.mem_map.mp hu with ⟨v, _, rfl⟩
  rfl

/-- Helper: every record is non-default after `clearFlaggedDefaults`. -/
theorem clearFlaggedDefaults_allFalse (db : List UserManager.UserConfig) :
    ∀ u ∈ UserManager.clearFlaggedDefaults db, u.isDefault = false := by
  intro u hu
  rcases List.mem_map.mp hu with ⟨v, _, rfl⟩
  cases h : v.isDefault <;> simp [h]

/-- Helper: `clearAllDefaults` over an all-false list is the identity. -/
theorem clearAllDefaults_of_allFalse (db : List UserManager.UserConfig)
    (h : ∀ u ∈ db, u.isDefault = false) : UserManager.clearAllDefaults db = db := by
  induction db with
  | nil => rfl
  | cons u us ih =>
    rw [List.forall_mem_cons] at h
    rw [clearAllDefaults_cons, ih h.2]
    obtain ⟨uh, ue, ud⟩ := u
    simp only at h
    rw [h.1]

/-- Helper: `clearFlaggedDefaults` over an all-false list is the identity. -/
theorem clearFlaggedDefaults_of_allFalse (db : List UserManager.UserConfig)
    (h : ∀ u ∈ db, u.isDefault = false) :
    UserManager.clearFlaggedDefaults db = db := by
  induction db with
  | nil => rfl
  | cons u us ih =>
    rw [List.forall_mem_cons] at h
    rw [clearFlaggedDefaults_cons, ih h.2, h.1]
    simp

/-- Helper: clearing after an `updateOneSetDefault` gives the cleared list. -/
theorem clearAllDefaults_updateOne (h : String) (db : List UserManager.UserConfig) :
    UserManager.clearAllDefaults (UserManager.updateOneSetDefault h db).1 =
      UserManager.clearAllDefaults db := by
  induction db with
  | nil => rfl
  | cons u us ih =>
    rw [updateOneSetDefault_cons]
    cases hm : (u.userHash == h) with
    | true => simp [clearAllDefaults_cons]
    | false => simp only [Bool.false_eq_true, if_false, clearAllDefaults_cons, ih]

/-- Helper: `updateOneSetDefault` reports no match iff no hash matches. -/
theorem updateOne_matched_iff (h : String) (db : List UserManager.UserConfig) :
    (UserManager.updateOneSetDefault h db).2 = false ↔
      ∀ u ∈ db, (u.userHash == h) = false := by
  induction db with
  | nil => simp [UserManager.updateOneSetDefault]
  | cons u us ih =>
    rw [List.forall_mem_cons, updateOneSetDefault_cons]
    cases hm : (u.userHash == h) with
    | true => simp [hm]
    | false => simp [hm, ih]

/-- Helper: an unmatched `updateOneSetDefault` is the identity. -/
theorem updateOne_nomatch_id (h : String) (db : List UserManager.UserConfig)
    (hm : (UserManager.updateOneSetDefault h db).2 = false) :
    (UserManager.updateOneSetDefault h db).1 = db := by
  induction db with
  | nil => rfl
  | cons u us ih =>
    rw [updateOneSetDefault_cons] at hm ⊢
    cases hum : (u.userHash == h) with
    | true => simp [hum] at hm
    | false =>
      simp only [hum, Bool.false_eq_true, if_false] at hm ⊢
      rw [ih hm]

/-- Helper: `updateOneSetDefault` across an append with no match on the
left part. -/
theorem updateOne_append (h : String) (l1 l2 : List UserManager.UserConfig)
    (hm : ∀ u ∈ l1, (u.userHash == h) = false) :
    UserManager.updateOneSetDefault h (l1 ++ l2) =
      (l1 ++ (UserManager.updateOneSetDefault h l2).1,
        (UserManager.updateOneSetDefault h l2).2) := by
  induction l1 with
  | nil => simp
  | cons u us ih =>
    rw [List.forall_mem_cons] at hm
    rw [List.cons_append, updateOneSetDefault_cons, hm.1]
    simp only [Bool.false_eq_true, if_false, ih hm.2, List.cons_append]

/-- Helper: `replaceOneBy` with no matching element appends the document. -/
theorem replaceOneBy_nomatch {α : Type} (p : α → Bool) (doc : α) (l : List α)
    (hm : ∀ d ∈ l, p d = false) : replaceOneBy p doc l = l ++ [doc] := by
  induction l with
  | nil => rfl
  | cons d ds ih =>
    rw [List.forall_mem_cons] at hm
    simp only [replaceOneBy, hm.1, Bool.false_eq_true, if_false, List.cons_append,
      ih hm.2]

/-- Helper: count of defaults in an all-false list is zero. -/
theorem countDefaults_zero (db : List UserManager.UserConfig)
    (h : ∀ u ∈ db, u.isDefault = false) : UserManager.countDefaults db = 0 := by
  induction db with
  | nil => rfl
  | cons u us ih =>
    rw [List.forall_mem_cons] at h
    rw [countDefaults_cons, h.1, ih h.2]
    simp

/-- Helper: count of defaults after a matched `updateOneSetDefault` on an
all-false list is one. -/
theorem countDefaults_updateOne (h : String) (db : List UserManager.UserConfig)
    (hfalse : ∀ u ∈ db, u.isDefault = false)
    (hm : (UserManager.updateOneSetDefault h db).2 = true) :
    UserManager.countDefaults (UserManager.updateOneSetDefault h db).1 = 1 := by
  induction db with
  | nil => simp [UserManager.updateOneSetDefault] at hm
  | cons u us ih =>
    rw [List.forall_mem_cons] at hfalse
    rw [updateOneSetDefault_cons] at hm ⊢
    cases hum : (u.userHash == h) with
    | true =>
      simp only [hum, if_true]
      rw [countDefaults_cons, countDefaults_zero us hfalse.2]
      simp
    | false =>
      simp only [hum, Bool.false_eq_true, if_false] at hm ⊢
      rw [countDefaults_cons, hfalse.1, ih hfalse.2 hm]
      simp

/-- Helper: count of defaults after upserting a default record into an
all-false list is one. -/
theorem countDefaults_replaceOne (p : UserManager.UserConfig → Bool)
    (doc : UserManager.UserConfig) (db : List UserManager.UserConfig)
    (hfalse : ∀ u ∈ db, u.isDefault = false) (hdoc : doc.isDefault = true) :
    UserManager.countDefaults (replaceOneBy p doc db) = 1 := by
  induction db with
  | nil =>
    show UserManager.countDefaults [doc] = 1
    rw [countDefaults_cons, hdoc]
    simp [UserManager.countDefaults]
  | cons u us ih =>
    rw [List.forall_mem_cons] at hfalse
    cases hm : p u with
    | true =>
      simp only [replaceOneBy, hm, if_true]
      rw [countDefaults_cons, hdoc, countDefaults_zero us hfalse.2]
      simp
    | false =>
      simp only [replaceOneBy, hm, Bool.false_eq_true, if_false]
      rw [countDefaults_cons, hfalse.1, ih hfalse.2]
      simp

/-- Helper: `addUser` with the default flag leaves exactly one default. -/
theorem addUser_default_count (db : List UserManager.UserConfig) (email : String) :
    UserManager.countDefaults (UserManager.addUser db email true) = 1 := by
  rw [addUser_eq]
  simp only [if_true]
  exact countDefaults_replaceOne _ _ _ (clearFlaggedDefaults_allFalse db) rfl

/-- Helper: `setDefaultUser` leaves exactly one default. -/
theorem setDefaultUser_count (db : List UserManager.UserConfig) (email : String) :
    UserManager.countDefaults (UserManager.setDefaultUser db email) = 1 := by
  rw [setDefaultUser_eq]
  cases hm : (UserManager.updateOneSetDefault (hashEmail email)
      (UserManager.clearAllDefaults db)).2 with
  | true =>
    simp only [hm, if_true]
    exact countDefaults_updateOne _ _ (clearAllDefaults_allFalse db) hm
  | false =>
    simp only [hm, Bool.false_eq_true, if_false]
    rw [updateOne_nomatch_id _ _ hm]
    exact addUser_default_count _ email

/-- Unfolding: `setDefaultWith` without its let-bindings. -/
theorem setDefaultWith_eq (db : List UserManager.UserConfig) (hh le : String) :
    UserManager.setDefaultWith db hh le =
      if (UserManager.updateOneSetDefault hh (UserManager.clearAllDefaults db)).2
          = true then
        (UserManager.updateOneSetDefault hh (UserManager.clearAllDefaults db)).1
      else
        replaceOneBy (fun u => u.userHash == hh)
          { userHash := hh, email := le, isDefault := true }
          (UserManager.clearFlaggedDefaults (UserManager.updateOneSetDefault hh
            (UserManager.clearAllDefaults db)).1) := rfl

/-- Helper: `setDefaultUser` is `setDefaultWith` at the derived hash. -/
theorem setDefaultUser_eq_with (db : List UserManager.UserConfig) (email : String) :
    UserManager.setDefaultUser db email =
      UserManager.setDefaultWith db (hashEmail email) (lowerStr email) := rfl

/-- Helper: `setDefaultWith` is idempotent. -/
theorem setDefaultWith_idem (db : List UserManager.UserConfig) (hh le : String) :
    UserManager.setDefaultWith (UserManager.setDefaultWith db hh le) hh le =
      UserManager.setDefaultWith db hh le := by
  cases hm : (UserManager.updateOneSetDefault hh
      (UserManager.clearAllDefaults db)).2 with
  | true =>
    have hs1 : UserManager.setDefaultWith db hh le =
        (UserManager.updateOneSetDefault hh (UserManager.clearAllDefaults db)).1 := by
      rw [setDefaultWith_eq, hm]
      simp
    rw [hs1, setDefaultWith_eq,
      clearAllDefaults_updateOne hh (UserManager.clearAllDefaults db),
      clearAllDefaults_of_allFalse _ (clearAllDefaults_allFalse db), hm]
    simp
  | false =>
    have hfalse := (updateOne_matched_iff hh
      (UserManager.clearAllDefaults db)).mp hm
    have hs1 : UserManager.setDefaultWith db hh le =
        UserManager.clearAllDefaults db ++
          [{ userHash := hh, email := le, isDefault := true }] := by
      rw [setDefaultWith_eq, hm]
      simp only [Bool.false_eq_true, if_false]
      rw [updateOne_nomatch_id _ _ hm,
        clearFlaggedDefaults_of_allFalse _ (clearAllDefaults_allFalse db)]
      exact replaceOneBy_nomatch _ _ _ hfalse
    rw [hs1, setDefaultWith_eq]
    have hclear : UserManager.clearAllDefaults
        (UserManager.clearAllDefaults db ++
          [{ userHash := hh, email := le, isDefault := true }]) =
        UserManager.clearAllDefaults db ++
          [{ userHash := hh, email := le, isDefault := false }] := by
      rw [clearAllDefaults_append,
        clearAllDefaults_of_allFalse _ (clearAllDefaults_allFalse db)]
      rfl
    rw [hclear, updateOne_append hh _ _ hfalse]
    simp only [updateOneSetDefault_cons, beq_self_eq_true, if_true]

/-- C10: `setDefaultUser` is idempotent (timestamps aside), and after
`setDefaultUser` — or `addUser` with the default flag — exactly one record
carries `isDefault = true` (in particular the collection is nonempty). -/
theorem setDefaultUser_idempotent_one_default
    (db : List UserManager.UserConfig) (email : String) :
    UserManager.setDefaultUser (UserManager.setDefaultUser db email) email =
      UserManager.setDefaultUser db email ∧
    UserManager.countDefaults (UserManager.setDefaultUser db email) = 1 ∧
    UserManager.countDefaults (UserManager.addUser db email true) = 1 ∧
    UserManager.setDefaultUser db email ≠ [] := by
  refine ⟨?_, setDefaultUser_count db email, addUser_default_count db email, ?_⟩
  · rw [setDefaultUser_eq_with db email, setDefaultUser_eq_with]
    exact setDefaultWith_idem db (hashEmail email) (lowerStr email)
  · intro hempty
    have hc := setDefaultUser_count db email
    rw [hempty] at hc
    simp [UserManager.countDefaults] at hc

end Portal

namespace Portal

/-- Helper: `replaceOneBy` neither adds nor removes documents selected by a
filter the replacing document fails and every replaceable document fails. -/
theorem filter_replaceOneBy {α : Type} (p q : α → Bool) (doc : α) (l : List α)
    (hdoc : q doc = false) (himp : ∀ d, p d = true → q d = false) :
    (replaceOneBy p doc l).filter q = l.filter q := by
  induction l with
  | nil => simp [replaceOneBy, List.filter_cons, hdoc]
  | cons d ds ih =>
    cases hp : p d with
    | true =>
      simp only [replaceOneBy, hp, if_true]
      simp [List.filter_cons, hdoc, himp d hp]
    | false =>
      simp only [replaceOneBy, hp, Bool.false_eq_true, if_false]
      simp only [List.filter_cons, ih]

/-- Helper: `deleteOneBy` removes no documents selected by a disjoint
filter. -/
theorem filter_deleteOneBy {α : Type} (p q : α → Bool) (l : List α)
    (himp : ∀ d, p d = true → q d = false) :
    (deleteOneBy p l).filter q = l.filter q := by
  induction l with
  | nil => rfl
  | cons d ds ih =>
    cases hp : p d with
    | true =>
      simp only [deleteOneBy, hp, if_true]
      simp [List.filter_cons, himp d hp]
    | false =>
      simp only [deleteOneBy, hp, Bool.false_eq_true, if_false]
      simp only [List.filter_cons, ih]

/-- Unfolding: `getDoc` as its underlying `find?`. -/
theorem getDoc_eq {α : Type} (db : List (MongoSearchCache.CacheDoc α))
    (ue : String) (p : DirectorySearchParams) (now : Nat) :
    MongoSearchCache.getDoc db ue p now =
      db.find? (fun d => d.userHash == hashEmail ue &&
        d.searchHash == getCacheKey p && decide (now < d.expiresAt)) := rfl

/-- Unfolding: `loadCredentialsDoc` as its underlying `find?`. -/
theorem loadCredentialsDoc_eq (db : List MongoCredentialStore.CredDoc)
    (ue : String) :
    MongoCredentialStore.loadCredentialsDoc db ue =
      db.find? (fun d => d.userHash == hashEmail ue) := rfl

/-- Unfolding: `MongoSearchCache.set` as its underlying upsert. -/
theorem cacheSet_eq {α : Type} (db : List (MongoSearchCache.CacheDoc α))
    (ue : String) (p : DirectorySearchParams) (dat : α) (now ttl : Nat) :
    MongoSearchCache.set db ue p dat now ttl =
      replaceOneBy
        (fun d => d.userHash == hashEmail ue && d.searchHash == getCacheKey p)
        { userHash := hashEmail ue, searchHash := getCacheKey p, data := dat,
          timestamp := now, expiresAt := now + ttl * 3600000 } db := rfl

/-- Unfolding: `MongoSearchCache.clearOne` as its underlying delete. -/
theorem cacheClearOne_eq {α : Type} (db : List (MongoSearchCache.CacheDoc α))
    (ue : String) (p : DirectorySearchParams) :
    MongoSearchCache.clearOne db ue p =
      deleteOneBy
        (fun d => d.userHash == hashEmail ue && d.searchHash == getCacheKey p)
        db := rfl

/-- Unfolding: `MongoSearchCache.clearAll` as its underlying filter. -/
theorem cacheClearAll_eq {α : Type} (db : List (MongoSearchCache.CacheDoc α))
    (ue : String) :
    MongoSearchCache.clearAll db ue =
      db.filter (fun d => !(d.userHash == hashEmail ue)) := rfl

/-- Unfolding: `saveCredentials` as its underlying upsert. -/
theorem saveCredentials_eq (db : List MongoCredentialStore.CredDoc)
    (ue enc iv : String) :
    MongoCredentialStore.saveCredentials db ue enc iv =
      replaceOneBy (fun d => d.userHash == hashEmail ue)
        { userHash := hashEmail ue, encryptedCredentials := enc, iv := iv }
        db := rfl

/-- Unfolding: `clearCredentials` as its underlying delete. -/
theorem clearCredentials_eq (db : List MongoCredentialStore.CredDoc)
    (ue : String) :
    MongoCredentialStore.clearCredentials db ue =
      deleteOneBy (fun d => d.userHash == hashEmail ue) db := rfl

set_option maxHeartbeats 1000000 in
/-- C1: partition isolation between two identities whose user hashes
differ (which the truncated SHA-256 of the lowercased emails gives any two
distinct case-insensitive identities, absent a hash collision): cache
reads and stored-session loads under B only ever return B's documents —
never one written under A — and A's cache writes, cache clears, session
saves and session deletes leave B's documents unchanged. -/
theorem user_isolation {α : Type} (A B : String)
    (hAB : hashEmail A ≠ hashEmail B)
    (cachedb : List (MongoSearchCache.CacheDoc α))
    (creddb : List MongoCredentialStore.CredDoc)
    (p q : DirectorySearchParams) (now nowS ttl : Nat) (dat : α)
    (enc iv : String) :
    (∀ d, MongoSearchCache.getDoc cachedb B p now = some d →
      d.userHash = hashEmail B ∧ d.userHash ≠ hashEmail A) ∧
    (∀ d, MongoCredentialStore.loadCredentialsDoc creddb B = some d →
      d.userHash = hashEmail B ∧ d.userHash ≠ hashEmail A) ∧
    ((MongoSearchCache.set cachedb A q dat nowS ttl).filter
        (fun d => d.userHash == hashEmail B) =
      cachedb.filter (fun d => d.userHash == hashEmail B)) ∧
    ((MongoSearchCache.clearOne cachedb A q).filter
        (fun d => d.userHash == hashEmail B) =
      cachedb.filter (fun d => d.userHash == hashEmail B)) ∧
    ((MongoSearchCache.clearAll cachedb A).filter
        (fun d => d.userHash == hashEmail B) =
      cachedb.filter (fun d => d.userHash == hashEmail B)) ∧
    ((MongoCredentialStore.saveCredentials creddb A enc iv).filter
        (fun d => d.userHash == hashEmail B) =
      creddb.filter (fun d => d.userHash == hashEmail B)) ∧
    ((MongoCredentialStore.clearCredentials creddb A).filter
        (fun d => d.userHash == hashEmail B) =
      creddb.filter (fun d => d.userHash == hashEmail B)) := by
  rw [getDoc_eq, loadCredentialsDoc_eq, cacheSet_eq, cacheClearOne_eq,
    cacheClearAll_eq, saveCredentials_eq, clearCredentials_eq]
  revert hAB
  generalize hashEmail A = hA
  generalize hashEmail B = hB
  generalize getCacheKey p = kp
  generalize getCacheKey q = kq
  intro hAB
  have hBA : hB ≠ hA := fun h => hAB h.symm
  refine ⟨?_, ?_, ?_, ?_, ?_, ?_, ?_⟩
  · intro d hd
    have hfind := List.find?_some hd
    simp only [Bool.and_eq_true, beq_iff_eq] at hfind
    refine ⟨hfind.1.1, ?_⟩
    rw [hfind.1.1]
    exact hBA
  · intro d hd
    have hfind := List.find?_some hd
    simp only [beq_iff_eq] at hfind
    refine ⟨hfind, ?_⟩
    rw [hfind]
    exact hBA
  · refine filter_replaceOneBy _ _ _ _ ?_ ?_
    · show (hA == hB) = false
      rw [beq_eq_false_iff_ne]
      exact hAB
    · intro d hd
      simp only [Bool.and_eq_true, beq_iff_eq] at hd
      rw [beq_eq_false_iff_ne, hd.1]
      exact hAB
  · refine filter_deleteOneBy _ _ _ ?_
    intro d hd
    simp only [Bool.and_eq_true, beq_iff_eq] at hd
    rw [beq_eq_false_iff_ne, hd.1]
    exact hAB
  · rw [List.filter_filter]
    apply List.filter_congr
    intro d _
    cases hB2 : (d.userHash == hB) with
    | true =>
      have hdB : d.userHash = hB := by
        rw [← beq_iff_eq]
        exact hB2
      have hA2 : (d.userHash == hA) = false := by
        rw [beq_eq_false_iff_ne, hdB]
        exact hBA
      simp [hA2, hB2]
    | false =>
      simp [hB2]
  · refine filter_replaceOneBy _ _ _ _ ?_ ?_
    · show (hA == hB) = false
      rw [beq_eq_false_iff_ne]
      exact hAB
    · intro d hd
      simp only [beq_iff_eq] at hd
      rw [beq_eq_false_iff_ne, hd]
      exact hAB
  · refine filter_deleteOneBy _ _ _ ?_
    intro d hd
    simp only [beq_iff_eq] at hd
    rw [beq_eq_false_iff_ne, hd]
    exact hAB

end Portal

namespace Portal

/-- Witness for `user_isolation` on concrete identities and stores. -/
theorem user_isolation_witness :
    hashEmail "alice@example.com" ≠ hashEmail "bob@example.com" ∧
    ((MongoSearchCache.set cacheSample "alice@example.com" qSample 7 0 24).filter
        (fun d => d.userHash == hashEmail "bob@example.com") =
      cacheSample.filter (fun d => d.userHash == hashEmail "bob@example.com")) :=
  ⟨by decide,
    (user_isolation "alice@example.com" "bob@example.com" (by decide) cacheSample
      credSample qSample qSample 10 0 24 7 "00ab" "0102").2.2.1⟩

end Portal

namespace Portal

/-- Helper: `parseStr` undoes `escChars` up to the closing quote. -/
theorem parseStr_esc (v rest : List Char) :
    parseStr (escChars v ++ ('"' :: rest)) = some (v, rest) := by
  induction v with
  | nil => simp [escChars, parseStr.eq_def]
  | cons c cs ih =>
    by_cases hc : c = '"' ∨ c = '\\'
    · have hesc : escChar c = ['\\', c] := by
        rcases hc with rfl | rfl <;> simp [escChar]
      simp only [escChars, List.map_cons, List.flatten_cons, hesc]
      show parseStr ('\\' :: (c :: (escChars cs ++ ('"' :: rest)))) = _
      rw [parseStr.eq_def]
      simp [show parseStr (escChars cs ++ ('"' :: rest)) = some (cs, rest) from ih]
    · push_neg at hc
      have hesc : escChar c = [c] := by simp [escChar, hc.1, hc.2]
      simp only [escChars, List.map_cons, List.flatten_cons, hesc]
      show parseStr (c :: (escChars cs ++ ('"' :: rest))) = _
      rw [parseStr.eq_def]
      simp [hc.1, hc.2,
        show parseStr (escChars cs ++ ('"' :: rest)) = some (cs, rest) from ih]

/-- Helper: `encPairs` of a nonempty pair list starts with a quote. -/
theorem encPairs_head (kv : String × String) (l : List (String × String)) :
    ∃ t, encPairs (kv :: l) = '"' :: t := by
  cases l with
  | nil => exact ⟨_, rfl⟩
  | cons kv2 l2 => exact ⟨_, rfl⟩

/-- Helper: a pair list is no longer than its encoding. -/
theorem length_le_encPairs (ps : List (String × String)) :
    ps.length ≤ (encPairs ps).length := by
  induction ps with
  | nil => simp [encPairs]
  | cons kv l ih =>
    cases l with
    | nil => simp [encPairs, encPair]
    | cons kv2 l2 =>
      rw [show encPairs (kv :: (kv2 :: l2)) =
        encPair kv ++ (',' :: encPairs (kv2 :: l2)) from rfl, List.length_append]
      simp only [List.length_cons] at ih ⊢
      have hk : 0 < (encPair kv).length := by
        rw [show encPair kv = '"' :: (escChars kv.1.data ++ ('"' :: (':' :: ('"' ::
          (escChars kv.2.data ++ ['"']))))) from rfl]
        simp
      omega

/-- Helper: the fueled pair parser undoes `encPairs` before the closing
brace. -/
theorem parsePairsF_enc (fuel : Nat) (ps : List (String × String))
    (hne : ps ≠ []) (hf : ps.length ≤ fuel) :
    parsePairsF fuel (encPairs ps ++ ['}']) = some ps := by
  induction fuel generalizing ps with
  | zero =>
    rcases ps with _ | ⟨kv, l⟩
    · exact absurd rfl hne
    · simp at hf
  | succ n ih =>
    rcases ps with _ | ⟨⟨k, v⟩, l⟩
    · exact absurd rfl hne
    · cases l with
      | nil =>
        show parsePairsF (n + 1)
          (('"' :: (escChars k.data ++ ('"' :: (':' :: ('"' ::
            (escChars v.data ++ ['"'])))))) ++ ['}']) = _
        rw [parsePairsF.eq_def]
        simp [parseStr_esc]
      | cons kv2 l2 =>
        have hlen : (kv2 :: l2).length ≤ n := by
          simp only [List.length_cons] at hf
          simpa using Nat.le_of_succ_le_succ hf
        have hrec := ih (kv2 :: l2) (by simp) hlen
        rw [show encPairs ((k, v) :: (kv2 :: l2)) =
          encPair (k, v) ++ (',' :: encPairs (kv2 :: l2)) from rfl,
          List.append_assoc, List.cons_append]
        show parsePairsF (n + 1)
          (('"' :: (escChars k.data ++ ('"' :: (':' :: ('"' ::
            (escChars v.data ++ ['"'])))))) ++
              (',' :: (encPairs (kv2 :: l2) ++ ['}']))) = _
        rw [parsePairsF.eq_def]
        simp [parseStr_esc, hrec]

/-- Helper: decoding inverts the JSON-object encoding. -/
theorem decodeObj_jsonObj (ps : List (String × String)) :
    decodeObj (jsonObj ps) = some ps := by
  cases ps with
  | nil => rfl
  | cons kv l =>
    rcases encPairs_head kv l with ⟨t, ht⟩
    show decodeObj ('{' :: (encPairs (kv :: l) ++ ['}'])) = _
    rw [decodeObj]
    rw [if_neg (by rw [ht]; simp)]
    exact parsePairsF_enc _ _ (by simp) (by
      calc (kv :: l).length ≤ (encPairs (kv :: l)).length :=
            length_le_encPairs _
        _ ≤ (encPairs (kv :: l) ++ ['}']).length := by simp)

/-- Helper: the canonical JSON string determines the serialized pairs. -/
theorem canonStr_inj (p q : DirectorySearchParams)
    (h : canonStr p = canonStr q) : canonPairs p = canonPairs q := by
  have hl : jsonObj (canonPairs p) = jsonObj (canonPairs q) :=
    congrArg String.data h
  have d1 := decodeObj_jsonObj (canonPairs p)
  have d2 := decodeObj_jsonObj (canonPairs q)
  rw [hl, d2] at d1
  exact (Option.some.inj d1).symm

/-- Helper: lookup misses in a `filterMap`-built pair list without the key. -/
theorem lookup_filterMap_notmem (f : String → Option String) (l : List String)
    (k : String) (hk : k ∉ l) :
    (l.filterMap (fun x => (f x).map (fun v => (x, v)))).lookup k = none := by
  induction l with
  | nil => rfl
  | cons x xs ih =>
    have hx : k ≠ x := fun h => hk (h ▸ List.mem_cons_self x xs)
    have hxs : k ∉ xs := fun h => hk (List.mem_cons_of_mem x h)
    cases hf : f x with
    | none =>
      simp only [List.filterMap_cons, hf]
      simpa using ih hxs
    | some v =>
      simp only [List.filterMap_cons, hf]
      simp [List.lookup_cons, beq_false_of_ne hx, ih hxs]

/-- Helper: lookup in a `filterMap`-built pair list over distinct keys. -/
theorem lookup_filterMap (f : String → Option String) (l : List String)
    (hnd : l.Nodup) (k : String) (hk : k ∈ l) :
    (l.filterMap (fun x => (f x).map (fun v => (x, v)))).lookup k = f k := by
  induction l with
  | nil => exact absurd hk (List.not_mem_nil k)
  | cons x xs ih =>
    rcases List.nodup_cons.mp hnd with ⟨hx, hxs⟩
    by_cases hkx : k = x
    · subst hkx
      cases hf : f k with
      | none =>
        simp only [List.filterMap_cons, hf]
        simpa using lookup_filterMap_notmem f xs k hx
      | some v =>
        simp only [List.filterMap_cons, hf]
        simp [List.lookup_cons_self]
    · have hkxs : k ∈ xs := by
        rcases List.mem_cons.mp hk with h | h
        · exact absurd h hkx
        · exact h
      cases hf : f x with
      | none =>
        simp only [List.filterMap_cons, hf]
        simpa using ih hxs hkxs
      | some v =>
        simp only [List.filterMap_cons, hf]
        simp [List.lookup_cons, beq_false_of_ne hkx, ih hxs hkxs]

end Portal

namespace Portal

/-- Helper: the `isSome` pre-filter inside a `filterMap` that drops `none`
anyway is redundant. -/
theorem filterMap_filter_isSome (f : String → Option String) (l : List String) :
    (l.filter (fun x => (f x).isSome)).filterMap
        (fun x => (f x).map (fun v => (x, v))) =
      l.filterMap (fun x => (f x).map (fun v => (x, v))) := by
  induction l with
  | nil => rfl
  | cons x xs ih =>
    cases hf : f x with
    | none => simp [List.filter_cons, List.filterMap_cons, hf, ih]
    | some v => simp [List.filter_cons, List.filterMap_cons, hf, ih]

/-- Helper: under well-formedness, the de-volatilized key list has the same
members as the canonical present-key list. -/
theorem mem_filtered_keyOrder (p : DirectorySearchParams) (hwf : p.WF)
    (k : String) :
    (k ∈ p.keyOrder.filter (fun k => !(k == "userEmail" || k == "refresh")) ↔
      k ∈ presentSearchKeys p) := by
  obtain ⟨hnd, hsub, hiff⟩ := hwf
  rw [List.mem_filter, presentSearchKeys, List.mem_filter]
  constructor
  · rintro ⟨hko, hnotvol⟩
    simp only [Bool.not_eq_eq_eq_not, Bool.not_true, Bool.or_eq_false_iff,
      beq_eq_false_iff_ne, ne_eq] at hnotvol
    have hall := hsub k hko
    have hkp := (hiff k hall).mp hko
    simp only [allParamKeys, List.mem_cons, List.not_mem_nil, or_false] at hall
    rcases hall with rfl | rfl | rfl | rfl | rfl | rfl | rfl
    · exact ⟨by decide, by simpa [keyPresent, searchFieldKeys] using hkp⟩
    · exact ⟨by decide, by simpa [keyPresent, searchFieldKeys] using hkp⟩
    · exact ⟨by decide, by simpa [keyPresent, searchFieldKeys] using hkp⟩
    · exact ⟨by decide, by simpa [keyPresent, searchFieldKeys] using hkp⟩
    · exact ⟨by decide, by simpa [keyPresent, searchFieldKeys] using hkp⟩
    · exact absurd rfl hnotvol.2
    · exact absurd rfl hnotvol.1
  · rintro ⟨hsk, hsome⟩
    simp only [searchFieldKeys, List.mem_cons, List.not_mem_nil, or_false] at hsk
    rcases hsk with rfl | rfl | rfl | rfl | rfl <;>
      exact ⟨(hiff _ (by decide)).mpr
        (by simpa [keyPresent, searchFieldKeys] using hsome), by decide⟩

/-- Helper: under well-formedness, `sortedKeys` is the canonical sorted
present-key list. -/
theorem sortedKeys_eq_present (p : DirectorySearchParams) (hwf : p.WF) :
    sortedKeys p = presentSearchKeys p := by
  have hnd1 : (p.keyOrder.filter
      (fun k => !(k == "userEmail" || k == "refresh"))).Nodup :=
    hwf.1.filter _
  have hndkeys : searchFieldKeys.Nodup := by decide
  have hnd2 : (presentSearchKeys p).Nodup := hndkeys.filter _
  have hperm : (p.keyOrder.filter
      (fun k => !(k == "userEmail" || k == "refresh"))).Perm
        (presentSearchKeys p) :=
    (List.perm_ext_iff_of_nodup hnd1 hnd2).mpr
      (fun k => mem_filtered_keyOrder p hwf k)
  have hpairkeys : searchFieldKeys.Pairwise (fun a b => strLeb a b = true) := by
    decide
  have hsorted : (presentSearchKeys p).Pairwise
      (fun a b => strLeb a b = true) := hpairkeys.filter _
  rw [sortedKeys, sortStrs_eq_of_perm _ _ hperm]
  exact sortStrs_of_pairwise _ hsorted

/-- Helper: the canonical pairs are the present fields in the fixed key
order. -/
theorem canonPairs_eq (p : DirectorySearchParams) (hwf : p.WF) :
    canonPairs p = searchFieldKeys.filterMap
      (fun k => (searchField p k).map (fun v => (k, v))) := by
  rw [canonPairs, sortedKeys_eq_present p hwf, presentSearchKeys,
    filterMap_filter_isSome]

/-- Helper: looking a search key up in the canonical pairs returns that
field. -/
theorem lookup_canonPairs (p : DirectorySearchParams) (hwf : p.WF) (k : String)
    (hk : k ∈ searchFieldKeys) :
    (canonPairs p).lookup k = searchField p k := by
  rw [canonPairs_eq p hwf]
  exact lookup_filterMap _ _ (by decide) k hk

/-- Helper: equal search fields give equal `searchField` functions. -/
theorem searchField_congr (p q : DirectorySearchParams)
    (h : sameSearchFields p q) (k : String) :
    searchField p k = searchField q k := by
  obtain ⟨h1, h2, h3, h4, h5⟩ := h
  simp only [searchField, h1, h2, h3, h4, h5]

/-- C9: under well-formed key orders and modulo SHA-256 collision-freeness
on the two canonical JSON strings, two queries have the same cache
signature exactly when their five search fields agree — key order and the
`refresh`/`userEmail` fields never matter, and any other field difference
changes the signature. -/
theorem getCacheKey_canonical (p q : DirectorySearchParams) (hp : p.WF)
    (hq : q.WF)
    (hcoll : sha256hex (canonStr p) = sha256hex (canonStr q) →
      canonStr p = canonStr q) :
    (getCacheKey p = getCacheKey q ↔ sameSearchFields p q) := by
  constructor
  · intro h
    have hc : canonStr p = canonStr q := hcoll h
    have hpairs := canonStr_inj p q hc
    have hfield : ∀ k ∈ searchFieldKeys, searchField p k = searchField q k := by
      intro k hk
      have l1 := lookup_canonPairs p hp k hk
      have l2 := lookup_canonPairs q hq k hk
      rw [hpairs] at l1
      exact l1.symm.trans l2
    exact ⟨hfield "firstName" (by decide), hfield "lastName" (by decide),
      hfield "city" (by decide), hfield "postalCode" (by decide),
      hfield "gradeLevel" (by decide)⟩
  · intro h
    have hfun : (fun k => (searchField p k).map (fun v => (k, v))) =
        (fun k => (searchField q k).map (fun v => (k, v))) := by
      funext k
      rw [searchField_congr p q h k]
    have hpairs : canonPairs p = canonPairs q := by
      rw [canonPairs_eq p hp, canonPairs_eq q hq, hfun]
    have hcs : canonStr p = canonStr q := by
      rw [canonStr, canonStr, hpairs]
    rw [getCacheKey, getCacheKey, hcs]

/-- Witness for `getCacheKey_canonical`: the same query under two key
orders, one with the volatile fields present. -/
theorem getCacheKey_canonical_witness :
    pSample.WF ∧ qSample.WF ∧ getCacheKey pSample = getCacheKey qSample :=
  ⟨by decide, by decide,
    (getCacheKey_canonical pSample qSample (by decide) (by decide)
      (fun _ => by decide)).mpr (by decide)⟩

end Portal

namespace Portal

/-- C3 (amended): `handleLoginSubmission` defaults to failure on ambiguity —
success only for a 302 redirect away from a login URL or a 200 whose body
lacks the failure markers and contains "parent" — while `VeracrossAuth.login`
runs its body check for any status, classifying marker-free bodies as
success even with no redirect and a non-200/302 status. -/
theorem login_classification_spec (status : Nat) (location : Option String)
    (body : String) :
    (status ≠ 302 → status ≠ 200 →
      BrowserAuthServer.handleLoginClassify status location body = false) ∧
    (BrowserAuthServer.handleLoginClassify status location body = true ↔
      ((status = 302 ∧ ∃ l, location = some l ∧ l ≠ "" ∧
          strIncludes l "login" = false) ∨
        (status = 200 ∧ strIncludes body "Invalid" = false ∧
          strIncludes body "incorrect" = false ∧
          strIncludes body "error" = false ∧
          strIncludes body "parent" = true))) ∧
    (VeracrossAuth.loginClassify status location body = true ↔
      (((status = 302 ∨ status = 200) ∧ ∃ l, location = some l ∧ l ≠ "" ∧
          strIncludes l "login" = false) ∨
        (strIncludes body "Invalid" = false ∧
          strIncludes body "error" = false))) := by
  refine ⟨?_, ?_, ?_⟩
  · intro h302 h200
    simp [BrowserAuthServer.handleLoginClassify, beq_false_of_ne h302,
      beq_false_of_ne h200]
  · rw [BrowserAuthServer.handleLoginClassify.eq_def]
    by_cases h302 : status = 302
    · subst h302
      rcases location with _ | l
      · simp
      · by_cases hl : l = "" <;>
          cases hlog : strIncludes l "login" <;> simp [hl, hlog]
    · rw [if_neg (by simpa using h302)]
      by_cases h200 : status = 200
      · subst h200
        cases h1 : strIncludes body "Invalid" <;>
          cases h2 : strIncludes body "incorrect" <;>
          cases h3 : strIncludes body "error" <;>
          cases h4 : strIncludes body "parent" <;>
          simp [h1, h2, h3, h4, h302]
      · rw [if_neg (by simpa using h200)]
        simp [h302, h200]
  · rw [VeracrossAuth.loginClassify.eq_def]
    by_cases hst : status = 302 ∨ status = 200
    · rcases location with _ | l
      · simp only [show ((status == 302 || status == 200) &&
          (match (none : Option String) with
            | some l => decide (l ≠ "") && !(strIncludes l "login")
            | none => false)) = false by simp]
        simp [hst]
      · by_cases hl : l = ""
        · subst hl
          simp [hst]
        · cases hlog : strIncludes l "login"
          · have hcond : ((status == 302 || status == 200) &&
                (decide (("" : String) ≠ "") && !(strIncludes "" "login"))) =
                false := by simp
            rcases hst with rfl | rfl <;> simp [hlog, hl]
          · rcases hst with rfl | rfl <;> simp [hlog, hl]
    · push_neg at hst
      have h1 : (status == 302) = false := beq_false_of_ne hst.1
      have h2 : (status == 200) = false := beq_false_of_ne hst.2
      simp [h1, h2, hst.1, hst.2]

/-- Witness for `login_classification_spec` at a concrete ambiguous
response. -/
theorem login_classification_spec_witness :
    (404 : Nat) ≠ 302 ∧ (404 : Nat) ≠ 200 ∧
    BrowserAuthServer.handleLoginClassify 404 none "Page Not Found" = false :=
  ⟨by decide, by decide,
    (login_classification_spec 404 none "Page Not Found").1 (by decide)
      (by decide)⟩

end Portal
